import Mathlib

/-!
Verification of the fractal keystream generator (src/cryptography.py).

Shallow embedding conventions:
* Python floats and complex numbers are modelled by the reals `ℝ` and the
  complexes `ℂ` (idealized real arithmetic; `np.sin`, `np.cos`, `np.exp`,
  `np.pi` become `Complex.sin`, `Complex.cos`, `Real.exp`, `Real.pi`).
* Python integers are `ℤ` (or `ℕ` where the source value is non-negative).
* The two hash primitives `hashlib.sha256` / `hashlib.sha512` are external
  library calls; they are modelled as explicit digest-function parameters
  (a function from the password string to the list of digest bytes), so
  every definition below is parametric in them.
* The `try ... except (OverflowError, FloatingPointError)` block of
  `fractal_function` is re-expressed with an explicit overflow flag:
  `fractal_function_ov ov` computes the `try`-body when `ov = false` and
  takes the `except` branch (result `0`) when `ov = true`.  The function
  actually called by the generator is `fractal_function = fractal_function_ov
  false`, idealized arithmetic never overflowing.
* The `print` / `time.time()` calls of `generate_keystream` are modelled in
  `generate_keystream_logged` by an explicit clock oracle and an explicit
  log output, so independence of the byte output from them is provable.
-/

namespace Fractal

/-- Python `int.from_bytes(byte_list, byteorder="big")`: big-endian base-256
value of a byte list. -/
def intFromBytesBE (l : List ℕ) : ℕ :=
  l.foldl (fun acc b => acc * 256 + b) 0

/-- Source `bytes_to_complex(byte_list)`:
`int_val = int.from_bytes(byte_list, "big")`;
`normalized = int_val / (2**64 - 1)`; `real = normalized * 4.0 - 2.0`;
`imag = (int_val & 0xFFFF) / (2**16 - 1) * 4.0 - 2.0`;
returns `complex(real, imag)`. -/
noncomputable def bytes_to_complex (l : List ℕ) : ℂ :=
  let int_val := intFromBytesBE l
  let normalized : ℝ := (int_val : ℝ) / (2 ^ 64 - 1)
  ⟨normalized * 4.0 - 2.0, ((int_val &&& 0xFFFF : ℕ) : ℝ) / (2 ^ 16 - 1) * 4.0 - 2.0⟩

/-- Source `generate_parameters(password)`:
`h256 = sha256(password).digest()`, `h512 = sha512(password).digest()`,
`alpha = bytes_to_complex(h256[:8])`, `beta = bytes_to_complex(h512[16:24])`,
`gamma = bytes_to_complex(h256[24:])`.  The two hash primitives are passed
in as digest-function parameters. -/
noncomputable def generate_parameters (sha256 sha512 : String → List ℕ)
    (password : String) : ℂ × ℂ × ℂ :=
  let h256 := sha256 password
  let h512 := sha512 password
  (bytes_to_complex (h256.take 8),
   bytes_to_complex ((h512.drop 16).take 8),
   bytes_to_complex (h256.drop 24))

/-- The magnitude clamp of `fractal_function`:
`if abs(z) > max_mag: z = z / abs(z) * max_mag`. -/
noncomputable def clampMag (max_mag : ℝ) (z : ℂ) : ℂ :=
  if Complex.abs z > max_mag then z / (Complex.abs z : ℂ) * (max_mag : ℂ) else z

/-- Python float `%` with a positive modulus: `x % m = x - m * floor(x / m)`. -/
noncomputable def pymod (x m : ℝ) : ℝ :=
  x - m * ⌊x / m⌋

/-- The body of the `try` block of `fractal_function` (applied after the
input clamp): `z_safe = complex(z.real % (2*pi), z.imag % (2*pi))`;
`term1 = sin(z_safe + alpha)`; `term2 = beta * cos(0.5 * z_safe)`;
`term3 = gamma * z_safe * exp(-abs(z_safe))`; `result = term1 + term2 + term3`. -/
noncomputable def fractal_try (z alpha beta gamma : ℂ) : ℂ :=
  let z_safe : ℂ := ⟨pymod z.re (2 * Real.pi), pymod z.im (2 * Real.pi)⟩
  let term1 := Complex.sin (z_safe + alpha)
  let term2 := beta * Complex.cos ((0.5 : ℂ) * z_safe)
  let term3 := gamma * z_safe * ((Real.exp (-(Complex.abs z_safe)) : ℝ) : ℂ)
  term1 + term2 + term3

/-- Source `fractal_function(z, alpha, beta, gamma, max_mag=100.0)` with the
`except (OverflowError, FloatingPointError)` branch made explicit: `ov` is
true exactly when the arithmetic of the `try` block raises, in which case
`result = complex(0, 0)`.  The output clamp is applied in both cases. -/
noncomputable def fractal_function_ov (ov : Bool) (z alpha beta gamma : ℂ)
    (max_mag : ℝ := 100.0) : ℂ :=
  let z₁ := clampMag max_mag z
  let result := if ov then (0 : ℂ) else fractal_try z₁ alpha beta gamma
  clampMag max_mag result

/-- Source `fractal_function` in idealized real arithmetic (the `try` block
never raises). -/
noncomputable def fractal_function (z alpha beta gamma : ℂ)
    (max_mag : ℝ := 100.0) : ℂ :=
  fractal_function_ov false z alpha beta gamma max_mag

/-- The byte-extraction step of the generator loop:
`re_frac = abs(z.real) - int(abs(z.real))`;
`im_frac = abs(z.imag) - int(abs(z.imag))`;
`re_int = int(re_frac * 2**20) & 0xFFFFFF`;
`im_int = int(im_frac * 2**20) & 0xFFFFFF`;
`byte_val = (re_int ^ im_int) & 0xFF`.
Python `int(x)` truncates toward zero; both truncated values here are
non-negative, so truncation coincides with the floor. -/
noncomputable def extract_byte (z : ℂ) : ℕ :=
  let re_frac : ℝ := |z.re| - (⌊|z.re|⌋ : ℝ)
  let im_frac : ℝ := |z.im| - (⌊|z.im|⌋ : ℝ)
  let re_int : ℕ := (⌊re_frac * 2 ^ 20⌋).toNat &&& 0xFFFFFF
  let im_int : ℕ := (⌊im_frac * 2 ^ 20⌋).toNat &&& 0xFFFFFF
  (re_int ^^^ im_int) &&& 0xFF

/-- The generator loop of `generate_keystream`: iterate
`z = fractal_function(z, alpha, beta, gamma)` and append one extracted byte
per iteration, `steps` times. -/
noncomputable def gen_aux (alpha beta gamma : ℂ) : ℕ → ℂ → List ℕ
  | 0, _ => []
  | steps + 1, z =>
    let z' := fractal_function z alpha beta gamma
    extract_byte z' :: gen_aux alpha beta gamma steps z'

/-- Source `generate_keystream(password, length, seed=complex(0.5, 0.3))`.
`length` is a Python integer; `for i in range(length)` performs
`length.toNat` iterations (zero when `length < 0`).  The `print` and
`time.time()` calls do not feed into the state and are omitted here (see
`generate_keystream_logged` for the version that models them). -/
noncomputable def generate_keystream (sha256 sha512 : String → List ℕ)
    (password : String) (length : ℤ) (seed : ℂ := ⟨0.5, 0.3⟩) : List ℕ :=
  let p := generate_parameters sha256 sha512 password
  gen_aux p.1 p.2.1 p.2.2 length.toNat seed

/-- Generator loop with an explicit overflow oracle: `ovs i` tells whether
the `try` block of the map step raises at iteration `i`. -/
noncomputable def gen_aux_ov (ovs : ℕ → Bool) (alpha beta gamma : ℂ) :
    ℕ → ℕ → ℂ → List ℕ
  | _, 0, _ => []
  | i, steps + 1, z =>
    let z' := fractal_function_ov (ovs i) z alpha beta gamma
    extract_byte z' :: gen_aux_ov ovs alpha beta gamma (i + 1) steps z'

/-- Version of `generate_keystream` with the overflow oracle threaded
through the loop. -/
noncomputable def generate_keystream_ov (ovs : ℕ → Bool)
    (sha256 sha512 : String → List ℕ) (password : String) (length : ℤ)
    (seed : ℂ := ⟨0.5, 0.3⟩) : List ℕ :=
  let p := generate_parameters sha256 sha512 password
  gen_aux_ov ovs p.1 p.2.1 p.2.2 0 length.toNat seed

/-- Generator loop modelling the progress reporting of the source: at every
iteration `i` with `i % 5000 == 0` the source prints `i` and the elapsed
time; the elapsed time is read from the clock oracle `clock`.  Returns the
keystream together with the log of `(i, clock i)` pairs printed. -/
noncomputable def gen_aux_logged (clock : ℕ → ℕ) (alpha beta gamma : ℂ) :
    ℕ → ℕ → ℂ → List ℕ × List (ℕ × ℕ)
  | _, 0, _ => ([], [])
  | i, steps + 1, z =>
    let entry : List (ℕ × ℕ) := if i % 5000 = 0 then [(i, clock i)] else []
    let z' := fractal_function z alpha beta gamma
    let rest := gen_aux_logged clock alpha beta gamma (i + 1) steps z'
    (extract_byte z' :: rest.1, entry ++ rest.2)

/-- Version of `generate_keystream` with the progress-reporting side channel
made explicit: the result is the keystream paired with the printed log. -/
noncomputable def generate_keystream_logged (clock : ℕ → ℕ)
    (sha256 sha512 : String → List ℕ) (password : String) (length : ℤ)
    (seed : ℂ := ⟨0.5, 0.3⟩) : List ℕ × List (ℕ × ℕ) :=
  let p := generate_parameters sha256 sha512 password
  gen_aux_logged clock p.1 p.2.1 p.2.2 0 length.toNat seed

/-- Little-endian binary digits of a natural number, computed with explicit
structural fuel (the fuel `n` itself always suffices, since the bit length
of `n` is at most `n` for `n ≥ 1`). -/
def natBitsAux : ℕ → ℕ → List ℕ
  | _, 0 => []
  | 0, _ + 1 => []
  | fuel + 1, n + 1 => (n + 1) % 2 :: natBitsAux fuel ((n + 1) / 2)

/-- Python `bin(b)[2:]` as a digit list (most significant bit first), except
that `bin(0)[2:]` is the single digit `"0"` while `natBits 0 = []`; the two
agree after the `zfill(8)` padding below, which is the only way the source
uses them. -/
def natBits (n : ℕ) : List ℕ :=
  (natBitsAux n n).reverse

/-- Python `bin(b)[2:].zfill(8)` as a digit list: left-pad with zeros to
length at least 8 (never truncates). -/
def byteBits (b : ℕ) : List ℕ :=
  List.replicate (8 - (natBits b).length) 0 ++ natBits b

/-- The bit expansion of `nist_randomness_tests`: for each byte, extend the
bit list by the 8-bit (or longer, for out-of-range values) big-endian
binary expansion. -/
def keystreamBits (ks : List ℕ) : List ℕ :=
  (ks.map byteBits).flatten

/-- Number of positions `i ≥ 1` with `bits[i] != bits[i-1]` — the quantity
the runs-test loop adds to its initial `runs = 1`. -/
def countChanges : List ℕ → ℕ
  | [] => 0
  | [_] => 0
  | a :: b :: rest => (if a ≠ b then 1 else 0) + countChanges (b :: rest)

/-- The quantity `runs = 1` plus the number of bit-to-bit changes, as
computed by the loop of `nist_randomness_tests`. -/
def runsCount (bits : List ℕ) : ℕ :=
  1 + countChanges bits

/-- Source `freq_test_passed = (0.486 < (ones / len(bits)) < 0.514)` with
`ones = sum(bits)`, in exact rational arithmetic. -/
def freq_test_passed (bits : List ℕ) : Bool :=
  decide ((0.486 : ℚ) < (bits.sum : ℚ) / bits.length ∧
    (bits.sum : ℚ) / bits.length < (0.514 : ℚ))

/-- Source `runs_test_passed = (runs > 0.9 * len(bits)/2 and runs < 1.1 *
len(bits)/2)` in exact rational arithmetic. -/
def runs_test_passed (bits : List ℕ) : Bool :=
  decide ((0.9 : ℚ) * bits.length / 2 < runsCount bits ∧
    (runsCount bits : ℚ) < (1.1 : ℚ) * bits.length / 2)

/-- Mean of a list of naturals as a real number (`np.mean`). -/
noncomputable def listMean (l : List ℕ) : ℝ :=
  (l.sum : ℝ) / l.length

/-- The list of deviations from the mean. -/
noncomputable def centered (l : List ℕ) : List ℝ :=
  l.map fun a => (a : ℝ) - listMean l

/-- Sum of pairwise products of two real lists. -/
noncomputable def dotList (x y : List ℝ) : ℝ :=
  ((x.zip y).map fun p => p.1 * p.2).sum

/-- Source `np.corrcoef(x, y)[0, 1]`, the Pearson correlation coefficient
`Σ(x-x̄)(y-ȳ) / sqrt(Σ(x-x̄)² · Σ(y-ȳ)²)`.  When either variance is zero
the division of NumPy yields NaN; that case is modelled as `none`. -/
noncomputable def pearson (x y : List ℕ) : Option ℝ :=
  let sxx := dotList (centered x) (centered x)
  let syy := dotList (centered y) (centered y)
  if sxx = 0 ∨ syy = 0 then none
  else some (dotList (centered x) (centered y) / (Real.sqrt sxx * Real.sqrt syy))

/-- Source `autocorr = np.corrcoef(bits[:-1], bits[1:])[0,1] if len(bits) > 1
else 0`, with NaN modelled as `none`. -/
noncomputable def autocorr_result (bits : List ℕ) : Option ℝ :=
  if 1 < bits.length then pearson bits.dropLast (bits.drop 1) else some 0

/-- The boolean `abs(autocorr) < 0.02` of the report; `abs(nan) < 0.02`
evaluates to false in Python, hence `none ↦ false`. -/
noncomputable def autocorr_passed (bits : List ℕ) : Bool :=
  match autocorr_result bits with
  | none => false
  | some r => decide (|r| < (0.02 : ℝ))

/-- The dictionary returned by `nist_randomness_tests`. -/
structure NistReport where
  frequency_test : Bool
  runs_test : Bool
  autocorrelation : Bool
  deriving Repr, DecidableEq

/-- The Python runtime error raised by `nist_randomness_tests` on an empty
bit sequence. -/
inductive PyError where
  | zeroDivision
  deriving Repr, DecidableEq

/-- Source `nist_randomness_tests(keystream)`.  The expression
`ones / len(bits)` of the frequency test raises `ZeroDivisionError` when
`len(bits) = 0` (i.e. exactly when the keystream is empty), before any of
the three results is produced; otherwise the report dictionary is
returned. -/
noncomputable def nist_randomness_tests (keystream : List ℕ) :
    Except PyError NistReport :=
  let bits := keystreamBits keystream
  if bits.length = 0 then .error .zeroDivision
  else .ok
    { frequency_test := freq_test_passed bits
      runs_test := runs_test_passed bits
      autocorrelation := autocorr_passed bits }

/-! Fixture digest functions, used to instantiate the hash parameters in
concrete witnesses (the hash primitives themselves are external). -/

/-- A concrete 32-byte digest function for witnesses. -/
def sha256Fix : String → List ℕ := fun _ => List.range 32

/-- A concrete 64-byte digest function for witnesses. -/
def sha512Fix : String → List ℕ := fun _ => List.range 64

/-- A concrete password for witnesses. -/
def pw0 : String := "pw"

/-! Helper lemmas -/

lemma abs_clampMag_le (m : ℝ) (hm : 0 < m) (z : ℂ) :
    Complex.abs (clampMag m z) ≤ m := by
  unfold clampMag
  split_ifs with h
  · have hz : (Complex.abs z : ℝ) ≠ 0 := ne_of_gt (lt_trans hm h)
    rw [map_mul, map_div₀, Complex.abs_ofReal, Complex.abs_ofReal,
      abs_of_nonneg (Complex.abs.nonneg z), abs_of_nonneg hm.le, div_self hz,
      one_mul]
  · exact le_of_not_lt h

lemma clampMag_zero (m : ℝ) (hm : 0 < m) : clampMag m 0 = 0 := by
  unfold clampMag
  rw [map_zero, if_neg (by exact not_lt.mpr hm.le)]

lemma extract_byte_le (z : ℂ) : extract_byte z ≤ 255 :=
  Nat.and_le_right

lemma gen_aux_length (a b c : ℂ) :
    ∀ (steps : ℕ) (z : ℂ), (gen_aux a b c steps z).length = steps
  | 0, _ => rfl
  | steps + 1, z => by
    simp only [gen_aux, List.length_cons, gen_aux_length a b c steps]

lemma gen_aux_mem_le (a b c : ℂ) :
    ∀ (steps : ℕ) (z : ℂ), ∀ x ∈ gen_aux a b c steps z, x ≤ 255
  | 0, _ => by simp [gen_aux]
  | steps + 1, z => by
    simp only [gen_aux, List.mem_cons, forall_eq_or_imp]
    exact ⟨extract_byte_le _, gen_aux_mem_le a b c steps _⟩

lemma gen_aux_take (a b c : ℂ) :
    ∀ (k steps : ℕ), k ≤ steps → ∀ z : ℂ,
      gen_aux a b c k z = (gen_aux a b c steps z).take k
  | 0, _, _, _ => by simp [gen_aux]
  | k + 1, 0, h, _ => absurd h (by omega)
  | k + 1, steps + 1, h, z => by
    simp only [gen_aux, List.take_succ_cons]
    exact congrArg _ (gen_aux_take a b c k steps (by omega) _)

lemma gen_aux_ov_length (ovs : ℕ → Bool) (a b c : ℂ) :
    ∀ (steps i : ℕ) (z : ℂ), (gen_aux_ov ovs a b c i steps z).length = steps
  | 0, _, _ => rfl
  | steps + 1, i, z => by
    simp only [gen_aux_ov, List.length_cons,
      gen_aux_ov_length ovs a b c steps (i + 1)]

lemma gen_aux_logged_fst (clock : ℕ → ℕ) (a b c : ℂ) :
    ∀ (steps i : ℕ) (z : ℂ),
      (gen_aux_logged clock a b c i steps z).1 = gen_aux a b c steps z
  | 0, _, _ => rfl
  | steps + 1, i, z => by
    simp only [gen_aux_logged, gen_aux,
      gen_aux_logged_fst clock a b c steps (i + 1)]

set_option maxRecDepth 4000 in
lemma byteBits_length_of_lt {b : ℕ} (hb : b < 256) : (byteBits b).length = 8 := by
  have h : ∀ b, b < 256 → (byteBits b).length = 8 := by decide
  exact h b hb

lemma byteBits_length_ge (b : ℕ) : 8 ≤ (byteBits b).length := by
  simp only [byteBits, List.length_append, List.length_replicate]
  omega

lemma keystreamBits_cons (b : ℕ) (ks : List ℕ) :
    keystreamBits (b :: ks) = byteBits b ++ keystreamBits ks := by
  simp [keystreamBits]

lemma keystreamBits_length {ks : List ℕ} (hb : ∀ b ∈ ks, b < 256) :
    (keystreamBits ks).length = 8 * ks.length := by
  induction ks with
  | nil => rfl
  | cons b t ih =>
    rw [keystreamBits_cons, List.length_append,
      byteBits_length_of_lt (hb b (by simp)), ih (fun x hx => hb x (by simp [hx]))]
    simp [Nat.mul_succ, Nat.add_comm]

lemma keystreamBits_length_pos {ks : List ℕ} (hne : ks ≠ []) :
    0 < (keystreamBits ks).length := by
  match ks with
  | [] => exact absurd rfl hne
  | b :: t =>
    rw [keystreamBits_cons, List.length_append]
    have := byteBits_length_ge b
    omega

lemma intFromBytesBE_foldl_lt {l : List ℕ} (hb : ∀ b ∈ l, b < 256) :
    ∀ acc : ℕ, l.foldl (fun acc b => acc * 256 + b) acc < (acc + 1) * 256 ^ l.length := by
  induction l with
  | nil => intro acc; simp
  | cons b t ih =>
    intro acc
    have hstep := ih (fun x hx => hb x (by simp [hx])) (acc * 256 + b)
    have hbb : b < 256 := hb b (by simp)
    calc (b :: t).foldl (fun acc b => acc * 256 + b) acc
        = t.foldl (fun acc b => acc * 256 + b) (acc * 256 + b) := rfl
      _ < (acc * 256 + b + 1) * 256 ^ t.length := hstep
      _ ≤ ((acc + 1) * 256) * 256 ^ t.length := by
          have : acc * 256 + b + 1 ≤ (acc + 1) * 256 := by omega
          exact Nat.mul_le_mul_right _ this
      _ = (acc + 1) * 256 ^ (b :: t).length := by
          rw [List.length_cons, pow_succ]
          ring

lemma intFromBytesBE_lt {l : List ℕ} (hb : ∀ b ∈ l, b < 256) :
    intFromBytesBE l < 256 ^ l.length := by
  have h := intFromBytesBE_foldl_lt hb 0
  simpa [intFromBytesBE] using h

/-- The square [-2, 2] × [-2, 2] of the complex plane in which all three
derived coefficients lie. -/
def inSquare (z : ℂ) : Prop :=
  -2 ≤ z.re ∧ z.re ≤ 2 ∧ -2 ≤ z.im ∧ z.im ≤ 2

lemma unitInterval_affine {x : ℝ} (h0 : 0 ≤ x) (h1 : x ≤ 1) :
    -2 ≤ x * 4.0 - 2.0 ∧ x * 4.0 - 2.0 ≤ 2 := by
  norm_num
  constructor <;> nlinarith

lemma bytes_to_complex_inSquare {l : List ℕ} (hlen : l.length ≤ 8)
    (hb : ∀ b ∈ l, b < 256) : inSquare (bytes_to_complex l) := by
  have hv : intFromBytesBE l < 2 ^ 64 := by
    calc intFromBytesBE l < 256 ^ l.length := intFromBytesBE_lt hb
      _ ≤ 256 ^ 8 := Nat.pow_le_pow_right (by norm_num) hlen
      _ = 2 ^ 64 := by norm_num
  have hv' : (intFromBytesBE l : ℝ) ≤ 2 ^ 64 - 1 := by
    have : intFromBytesBE l ≤ 2 ^ 64 - 1 := by omega
    calc (intFromBytesBE l : ℝ) ≤ ((2 ^ 64 - 1 : ℕ) : ℝ) := by exact_mod_cast this
      _ = 2 ^ 64 - 1 := by norm_num
  have hw : intFromBytesBE l &&& 0xFFFF ≤ 0xFFFF := Nat.and_le_right
  have hw' : ((intFromBytesBE l &&& 0xFFFF : ℕ) : ℝ) ≤ 2 ^ 16 - 1 := by
    calc ((intFromBytesBE l &&& 0xFFFF : ℕ) : ℝ) ≤ ((0xFFFF : ℕ) : ℝ) := by
          exact_mod_cast hw
      _ = 2 ^ 16 - 1 := by norm_num
  have hd64 : (0 : ℝ) < 2 ^ 64 - 1 := by norm_num
  have hd16 : (0 : ℝ) < 2 ^ 16 - 1 := by norm_num
  have hre0 : (0 : ℝ) ≤ (intFromBytesBE l : ℝ) / (2 ^ 64 - 1) :=
    div_nonneg (Nat.cast_nonneg _) hd64.le
  have hre1 : (intFromBytesBE l : ℝ) / (2 ^ 64 - 1) ≤ 1 :=
    (div_le_one hd64).mpr hv'
  have him0 : (0 : ℝ) ≤ ((intFromBytesBE l &&& 0xFFFF : ℕ) : ℝ) / (2 ^ 16 - 1) :=
    div_nonneg (Nat.cast_nonneg _) hd16.le
  have him1 : ((intFromBytesBE l &&& 0xFFFF : ℕ) : ℝ) / (2 ^ 16 - 1) ≤ 1 :=
    (div_le_one hd16).mpr hw'
  have hre := unitInterval_affine hre0 hre1
  have him := unitInterval_affine him0 him1
  exact ⟨hre.1, hre.2, him.1, him.2⟩

/-! Claim theorems -/

/-- Claim C1: keystream generation is a pure function of
(password, length, seed).  The only side effects of the source loop are the
progress prints reading the wall clock; for any two clock oracles the logged
run produces the same byte sequence, and that sequence is exactly the one of
the pure `generate_keystream`, so two calls with identical arguments return
identical byte sequences. -/
theorem c1_keystream_pure (clock₁ clock₂ : ℕ → ℕ)
    (sha256 sha512 : String → List ℕ) (p : String) (n : ℤ) (s : ℂ) :
    (generate_keystream_logged clock₁ sha256 sha512 p n s).1 =
      (generate_keystream_logged clock₂ sha256 sha512 p n s).1 ∧
    (generate_keystream_logged clock₁ sha256 sha512 p n s).1 =
      generate_keystream sha256 sha512 p n s := by
  unfold generate_keystream_logged generate_keystream
  rw [gen_aux_logged_fst, gen_aux_logged_fst]
  exact ⟨rfl, rfl⟩

/-- Claim C2: for every password, every length `n ≥ 0` and every seed,
`generate_keystream` returns exactly `n` elements, each in [0, 255], and
`n = 0` yields the empty sequence. -/
theorem c2_length_range (sha256 sha512 : String → List ℕ) (p : String)
    (s : ℂ) (n : ℤ) (hn : 0 ≤ n) :
    ((generate_keystream sha256 sha512 p n s).length : ℤ) = n ∧
    (∀ b ∈ generate_keystream sha256 sha512 p n s, b ≤ 255) ∧
    (n = 0 → generate_keystream sha256 sha512 p n s = []) := by
  unfold generate_keystream
  refine ⟨?_, gen_aux_mem_le _ _ _ _ _, ?_⟩
  · rw [gen_aux_length]
    exact Int.toNat_of_nonneg hn
  · intro h
    rw [h]
    rfl

/-- Witness for C2 at password `pw0`, length 3, seed 0.5 + 0.3i. -/
theorem c2_length_range_witness :
    (0 : ℤ) ≤ 3 ∧
    (((generate_keystream sha256Fix sha512Fix pw0 3 ⟨0.5, 0.3⟩).length : ℤ) = 3 ∧
    (∀ b ∈ generate_keystream sha256Fix sha512Fix pw0 3 ⟨0.5, 0.3⟩, b ≤ 255) ∧
    ((3 : ℤ) = 0 → generate_keystream sha256Fix sha512Fix pw0 3 ⟨0.5, 0.3⟩ = [])) :=
  ⟨by norm_num, c2_length_range sha256Fix sha512Fix pw0 ⟨0.5, 0.3⟩ 3 (by norm_num)⟩

/-- Claim C3: one map step with `max_mag = 100.0` always returns a value of
magnitude at most `max_mag`, for every complex input (in particular for a
huge input such as 10⁶ + 10⁶·i) and all coefficients. -/
theorem c3_step_magnitude_bounded (z alpha beta gamma : ℂ) :
    Complex.abs (fractal_function z alpha beta gamma 100.0) ≤ 100.0 := by
  unfold fractal_function fractal_function_ov
  exact abs_clampMag_le _ (by norm_num) _

/-- Claim C5: when the arithmetic of the `try` block raises a floating-point
overflow condition (overflow flag true), the map step substitutes 0 + 0i,
still applies the output clamp, and returns normally (the result is the
clamped zero, i.e. plain 0); consequently keystream generation runs to
completion — under any per-iteration overflow oracle it still returns the
full requested number of bytes, with no error surfaced to the caller. -/
theorem c5_overflow_recovered (z alpha beta gamma : ℂ) :
    fractal_function_ov true z alpha beta gamma 100.0 = clampMag 100.0 0 ∧
    fractal_function_ov true z alpha beta gamma 100.0 = 0 ∧
    ∀ (ovs : ℕ → Bool) (sha256 sha512 : String → List ℕ) (p : String)
      (n : ℤ) (s : ℂ),
      (generate_keystream_ov ovs sha256 sha512 p n s).length = n.toNat := by
  refine ⟨rfl, ?_, ?_⟩
  · show clampMag 100.0 (if true then (0 : ℂ) else _) = 0
    rw [if_pos rfl]
    exact clampMag_zero _ (by norm_num)
  · intro ovs sha256 sha512 p n s
    unfold generate_keystream_ov
    exact gen_aux_ov_length _ _ _ _ _ _ _

/-- Counterexample to claim C6: called with the negative length −1,
`generate_keystream` does not signal an invalid-argument failure; the
`for i in range(length)` loop simply runs zero times and the call quietly
returns the empty sequence. -/
theorem c6_counterexample :
    generate_keystream sha256Fix sha512Fix pw0 (-1) ⟨0.5, 0.3⟩ = [] := by
  have h : (-1 : ℤ).toNat = 0 := by decide
  unfold generate_keystream
  rw [h]
  rfl

/-- Claim C6 as amended: for every negative length the generator silently
returns the empty sequence (Python `range` of a negative count is empty);
no invalid-argument failure is signalled. -/
theorem c6_negative_length_silent (sha256 sha512 : String → List ℕ)
    (p : String) (s : ℂ) (n : ℤ) (hn : n < 0) :
    generate_keystream sha256 sha512 p n s = [] := by
  have h : n.toNat = 0 := Int.toNat_of_nonpos hn.le
  unfold generate_keystream
  rw [h]
  rfl

/-- Witness for the amended C6 at length −2. -/
theorem c6_negative_length_silent_witness :
    (-2 : ℤ) < 0 ∧ generate_keystream sha256Fix sha512Fix pw0 (-2) ⟨0.5, 0.3⟩ = [] :=
  ⟨by norm_num,
   c6_negative_length_silent sha256Fix sha512Fix pw0 ⟨0.5, 0.3⟩ (-2) (by norm_num)⟩

/-- Claim C9: for lengths `n ≤ m`, the length-`n` keystream is exactly the
first `n` bytes of the length-`m` keystream — requesting more bytes never
changes the earlier ones. -/
theorem c9_keystream_prefix (sha256 sha512 : String → List ℕ) (p : String)
    (s : ℂ) (n m : ℤ) (hnm : n ≤ m) :
    generate_keystream sha256 sha512 p n s =
      (generate_keystream sha256 sha512 p m s).take n.toNat := by
  unfold generate_keystream
  exact gen_aux_take _ _ _ _ _ (Int.toNat_le_toNat hnm) _

/-- Witness for C9 at lengths 2 ≤ 5. -/
theorem c9_keystream_prefix_witness :
    (2 : ℤ) ≤ 5 ∧
    generate_keystream sha256Fix sha512Fix pw0 2 ⟨0.5, 0.3⟩ =
      (generate_keystream sha256Fix sha512Fix pw0 5 ⟨0.5, 0.3⟩).take (2 : ℤ).toNat :=
  ⟨by norm_num,
   c9_keystream_prefix sha256Fix sha512Fix pw0 ⟨0.5, 0.3⟩ 2 5 (by norm_num)⟩

/-- Claim C4: `generate_parameters p` is
(`bytes_to_complex` of SHA-256(p)[0:8], of SHA-512(p)[16:24], of
SHA-256(p)[24:32]), and each of the three coefficients lies in the square
[-2, 2] × [-2, 2].  The digest functions are explicit parameters; the
hypotheses record the fixed digest widths (32 and 64 bytes) and that
digests are byte lists. -/
theorem c4_parameters_spec (sha256 sha512 : String → List ℕ) (p : String)
    (h256len : (sha256 p).length = 32)
    (h256b : ∀ b ∈ sha256 p, b < 256) (h512b : ∀ b ∈ sha512 p, b < 256) :
    generate_parameters sha256 sha512 p =
      (bytes_to_complex ((sha256 p).take 8),
       bytes_to_complex (((sha512 p).drop 16).take 8),
       bytes_to_complex (((sha256 p).drop 24).take 8)) ∧
    inSquare (generate_parameters sha256 sha512 p).1 ∧
    inSquare (generate_parameters sha256 sha512 p).2.1 ∧
    inSquare (generate_parameters sha256 sha512 p).2.2 := by
  have hdrop : ((sha256 p).drop 24).take 8 = (sha256 p).drop 24 := by
    apply List.take_of_length_le
    rw [List.length_drop, h256len]
  refine ⟨?_, ?_, ?_, ?_⟩
  · unfold generate_parameters
    rw [hdrop]
  · exact bytes_to_complex_inSquare
      (by rw [List.length_take]; omega)
      (fun b hb => h256b b (List.take_subset _ _ hb))
  · exact bytes_to_complex_inSquare
      (by rw [List.length_take]; omega)
      (fun b hb => h512b b (List.drop_subset _ _ (List.take_subset _ _ hb)))
  · exact bytes_to_complex_inSquare
      (by rw [List.length_drop, h256len])
      (fun b hb => h256b b (List.drop_subset _ _ hb))

/-- Witness for C4 with concrete 32- and 64-byte digest functions. -/
theorem c4_parameters_spec_witness :
    ((sha256Fix pw0).length = 32 ∧
     (∀ b ∈ sha256Fix pw0, b < 256) ∧ (∀ b ∈ sha512Fix pw0, b < 256)) ∧
    (generate_parameters sha256Fix sha512Fix pw0 =
      (bytes_to_complex ((sha256Fix pw0).take 8),
       bytes_to_complex (((sha512Fix pw0).drop 16).take 8),
       bytes_to_complex (((sha256Fix pw0).drop 24).take 8)) ∧
    inSquare (generate_parameters sha256Fix sha512Fix pw0).1 ∧
    inSquare (generate_parameters sha256Fix sha512Fix pw0).2.1 ∧
    inSquare (generate_parameters sha256Fix sha512Fix pw0).2.2) :=
  ⟨⟨by decide, by decide, by decide⟩,
   c4_parameters_spec sha256Fix sha512Fix pw0
     (by decide) (by decide) (by decide)⟩

lemma nist_randomness_tests_ok {ks : List ℕ}
    (hpos : ¬ (keystreamBits ks).length = 0) :
    nist_randomness_tests ks = .ok
      ⟨freq_test_passed (keystreamBits ks), runs_test_passed (keystreamBits ks),
       autocorr_passed (keystreamBits ks)⟩ := by
  simp only [nist_randomness_tests]
  rw [if_neg hpos]

/-- Claim C7: for every non-empty keystream (of bytes in [0, 255]), the
analyzer returns a report whose runs-test entry is pass exactly when
`runs = 1 + number of bit-to-bit changes` lies strictly between
`0.9 · N/2` and `1.1 · N/2`, with `N = 8 ·` (number of bytes). -/
theorem c7_runs_test (ks : List ℕ) (hne : ks ≠ []) (hb : ∀ b ∈ ks, b < 256) :
    ∃ rep : NistReport, nist_randomness_tests ks = .ok rep ∧
      (rep.runs_test = true ↔
        ((0.9 : ℚ) * ((8 * ks.length : ℕ) : ℚ) / 2 < runsCount (keystreamBits ks) ∧
         (runsCount (keystreamBits ks) : ℚ) < (1.1 : ℚ) * ((8 * ks.length : ℕ) : ℚ) / 2)) := by
  have hlen : (keystreamBits ks).length = 8 * ks.length := keystreamBits_length hb
  have hpos : ¬ (keystreamBits ks).length = 0 :=
    Nat.pos_iff_ne_zero.mp (keystreamBits_length_pos hne)
  refine ⟨_, nist_randomness_tests_ok hpos, ?_⟩
  simp only [runs_test_passed, decide_eq_true_eq, hlen]

/-- Witness for C7 at the one-byte keystream [0]. -/
theorem c7_runs_test_witness :
    (([0] : List ℕ) ≠ [] ∧ (∀ b ∈ ([0] : List ℕ), b < 256)) ∧
    ∃ rep : NistReport, nist_randomness_tests [0] = .ok rep ∧
      (rep.runs_test = true ↔
        ((0.9 : ℚ) * ((8 * ([0] : List ℕ).length : ℕ) : ℚ) / 2 <
            runsCount (keystreamBits [0]) ∧
         (runsCount (keystreamBits [0]) : ℚ) <
            (1.1 : ℚ) * ((8 * ([0] : List ℕ).length : ℕ) : ℚ) / 2)) :=
  ⟨⟨by decide, by decide⟩, c7_runs_test [0] (by decide) (by decide)⟩

/-- Counterexample to claim C8: on the empty keystream the analyzer never
reports a passing autocorrelation result — the call raises a
division-by-zero error (in the frequency test) before any result is
produced, so no report exists at all. -/
theorem c8_counterexample :
    nist_randomness_tests [] = .error .zeroDivision := by
  rfl

/-- Claim C8 as amended: for every non-empty keystream the analyzer returns
a report whose autocorrelation entry is pass exactly when the lag-1 Pearson
correlation of the bit sequence is defined (neither slice is constant, so
NumPy does not produce NaN) and its absolute value is below 0.02.  The
empty keystream — the only input whose bit sequence has length ≤ 1 — never
reaches the autocorrelation computation: the analyzer raises a
division-by-zero error in the frequency test first, so no passing result is
reported for it. -/
theorem c8_autocorrelation_test (ks : List ℕ) (hne : ks ≠ []) :
    ∃ rep : NistReport, nist_randomness_tests ks = .ok rep ∧
      (rep.autocorrelation = true ↔
        ∃ r : ℝ, autocorr_result (keystreamBits ks) = some r ∧ |r| < (0.02 : ℝ)) := by
  have hpos : ¬ (keystreamBits ks).length = 0 :=
    Nat.pos_iff_ne_zero.mp (keystreamBits_length_pos hne)
  refine ⟨_, nist_randomness_tests_ok hpos, ?_⟩
  show autocorr_passed (keystreamBits ks) = true ↔ _
  unfold autocorr_passed
  cases h : autocorr_result (keystreamBits ks) with
  | none => simp [h]
  | some r => simp [h]

/-- Witness for the amended C8 at the one-byte keystream [1]. -/
theorem c8_autocorrelation_test_witness :
    ([1] : List ℕ) ≠ [] ∧
    ∃ rep : NistReport, nist_randomness_tests [1] = .ok rep ∧
      (rep.autocorrelation = true ↔
        ∃ r : ℝ, autocorr_result (keystreamBits [1]) = some r ∧ |r| < (0.02 : ℝ)) :=
  ⟨by decide, c8_autocorrelation_test [1] (by decide)⟩

/-- Claim C10: on the empty keystream the analyzer raises a
division-by-zero error while computing the frequency test (the bit sequence
is empty and `ones / len(bits)` divides by zero) instead of returning a
report, while every non-empty keystream yields a report with the three
boolean entries. -/
theorem c10_empty_division :
    nist_randomness_tests [] = .error .zeroDivision ∧
    ∀ ks : List ℕ, ks ≠ [] →
      ∃ rep : NistReport, nist_randomness_tests ks = .ok rep := by
  constructor
  · rfl
  · intro ks hne
    have hpos : ¬ (keystreamBits ks).length = 0 :=
      Nat.pos_iff_ne_zero.mp (keystreamBits_length_pos hne)
    exact ⟨_, nist_randomness_tests_ok hpos⟩

/-- Witness for C10: the non-empty branch instantiated at the keystream [2]. -/
theorem c10_empty_division_witness :
    nist_randomness_tests [] = .error .zeroDivision ∧
    ∃ rep : NistReport, nist_randomness_tests [2] = .ok rep :=
  ⟨c10_empty_division.1, c10_empty_division.2 [2] (by decide)⟩

end Fractal
